import Mathlib

set_option maxHeartbeats 1000000

/-!
Shallow embedding of the endpoint configuration registry
(cmd/config/main.go): the identifier extractor, the flat and structured
serialization forms of endpoint records, the key-value store operations
used by the handlers, and the three HTTP handlers. Strings are modelled
as lists of characters; the hash stored under each key and the store
itself are association lists.
-/

abbrev Str := List Char

def kIdentifier : Str := "identifier".data

def kUrl : Str := "url".data

def kMethod : Str := "method".data

def kStatusOnline : Str := "status_online".data

def kFrequency : Str := "frequency".data

def kFailAfter : Str := "fail_after".data

def kEndpointKey : Str := "endpoint:".data

def kPathLead : Str := "/endpoints/".data

/-- First character class of the anchored pattern: a lowercase letter. -/
def identHeadOK (c : Char) : Bool := decide ('a' ≤ c ∧ c ≤ 'z')

/-- Remaining character class of the anchored pattern: hyphen, lowercase
letter or digit. -/
def identTailOK (c : Char) : Bool :=
  decide (c = '-' ∨ ('a' ≤ c ∧ c ≤ 'z') ∨ ('0' ≤ c ∧ c ≤ '9'))

/-- Whole-string match of the capture group of the anchored pattern
used by extractEndpointIdentifier: one lowercase letter followed by one
or more characters from the tail class. -/
def identCheck : Str → Bool
  | [] => false
  | c :: rest => identHeadOK c && !rest.isEmpty && rest.all identTailOK

/-- Strips a literal from the front of a string, returning the remainder
when the literal is present. -/
def stripLead : Str → Str → Option Str
  | [], s => some s
  | _ :: _, [] => none
  | p :: ps, c :: cs => if p = c then stripLead ps cs else none

/-- Translation of extractEndpointIdentifier: the Go code matches the
whole request path against the anchored regular expression pattern
of endpointIdentifierPatternRaw and returns the capture group, or an
error when the path does not match. It is a pure function of the path
string. -/
def extractEndpointIdentifier (endpoint : Str) : Option Str :=
  match stripLead kPathLead endpoint with
  | none => none
  | some rest => if identCheck rest then some rest else none

/-- Identifier grammar exactly as the specification words it: starts
with a lowercase letter, followed by one or more characters from
the set of lowercase letters, digits and hyphen, and nothing else
(whence minimum total length 2, no slashes, no uppercase). -/
def specIdentGrammar : Str → Prop
  | [] => False
  | c :: rest =>
      ('a' ≤ c ∧ c ≤ 'z') ∧ rest ≠ [] ∧
        ∀ x ∈ rest, x = '-' ∨ ('a' ≤ x ∧ x ≤ 'z') ∨ ('0' ≤ x ∧ x ≤ '9')

instance instDecSpecIdentGrammar : (s : Str) → Decidable (specIdentGrammar s)
  | [] => isFalse (fun h => h)
  | c :: rest =>
      inferInstanceAs (Decidable (('a' ≤ c ∧ c ≤ 'z') ∧ rest ≠ [] ∧
        ∀ x ∈ rest, x = '-' ∨ ('a' ≤ x ∧ x ≤ 'z') ∨ ('0' ≤ x ∧ x ≤ '9')))

theorem stripLead_eq_some (p : Str) : ∀ s r : Str,
    stripLead p s = some r ↔ s = p ++ r := by
  induction p with
  | nil =>
      intro s r
      simp [stripLead]
  | cons x xs ih =>
      intro s r
      cases s with
      | nil => simp [stripLead]
      | cons c cs =>
          by_cases h : x = c
          · subst h
            simp [stripLead, ih]
          · simp [stripLead, h]
            intro hc
            exact fun _ => h hc.symm

theorem identCheck_iff (s : Str) : identCheck s = true ↔ specIdentGrammar s := by
  cases s with
  | nil => simp [identCheck, specIdentGrammar]
  | cons c rest =>
      simp [identCheck, specIdentGrammar, identHeadOK, identTailOK,
        List.all_eq_true, List.isEmpty_iff, Bool.and_eq_true,
        decide_eq_true_eq, and_assoc]

/-- C3: the identifier extractor accepts a request path if and only if
it has the form /endpoints/<id> with <id> matching the grammar
[a-z][-a-z0-9]+ (starts with a lowercase letter, then one or more of
lowercase letters, digits, hyphen; minimum total length 2; no slashes,
no uppercase, nothing else), returning the extracted identifier on
match; it is a pure function of the path string. -/
theorem C3_extractor_correct (p id : Str) :
    extractEndpointIdentifier p = some id ↔
      p = kPathLead ++ id ∧ specIdentGrammar id := by
  unfold extractEndpointIdentifier
  cases h : stripLead kPathLead p with
  | none =>
      constructor
      · intro hc
        exact Option.noConfusion hc
      · rintro ⟨hp, _⟩
        have hs : stripLead kPathLead p = some id :=
          (stripLead_eq_some kPathLead p id).mpr hp
        rw [h] at hs
        exact Option.noConfusion hs
  | some rest =>
      have hp : p = kPathLead ++ rest := (stripLead_eq_some kPathLead p rest).mp h
      show (if identCheck rest = true then some rest else none) = some id ↔
        p = kPathLead ++ id ∧ specIdentGrammar id
      by_cases hc : identCheck rest = true
      · rw [if_pos hc]
        constructor
        · intro he
          have hr : rest = id := Option.some.inj he
          subst hr
          exact ⟨hp, (identCheck_iff rest).mp hc⟩
        · rintro ⟨hp2, _⟩
          have hr : rest = id := List.append_cancel_left (hp ▸ hp2)
          rw [hr]
      · rw [if_neg hc]
        constructor
        · intro he
          exact Option.noConfusion he
        · rintro ⟨hp2, hg⟩
          have hr : rest = id := List.append_cancel_left (hp ▸ hp2)
          subst hr
          exact absurd ((identCheck_iff rest).mpr hg) hc

def demoPath : Str := "/endpoints/my-service".data

def demoId : Str := "my-service".data

theorem C3_extractor_correct_witness :
    extractEndpointIdentifier demoPath = some demoId :=
  (C3_extractor_correct demoPath demoId).mpr ⟨by decide, by decide⟩

/-- Decimal digit character for a value below ten. -/
def digitChar (d : Nat) : Char := Char.ofNat (48 + d)

def isDigitCh (c : Char) : Bool := decide ('0' ≤ c ∧ c ≤ '9')

def digitVal (c : Char) : Nat := c.toNat - 48

/-- Fuel-driven digit accumulator: the fuel strictly bounds the number,
which keeps the recursion structural. -/
def natDigitsAux : Nat → Nat → Str
  | 0, _ => []
  | fuel + 1, n =>
      if n < 10 then [digitChar n]
      else natDigitsAux fuel (n / 10) ++ [digitChar (n % 10)]

/-- Decimal rendering of a natural number, most significant digit
first, as produced by strconv.Itoa on a nonnegative argument. -/
def natDigits (n : Nat) : Str := natDigitsAux (n + 1) n

def decValFrom (acc : Nat) (ds : Str) : Nat :=
  ds.foldl (fun a c => a * 10 + digitVal c) acc

/-- Numeric value of a string of decimal digits. -/
def decimalValue (ds : Str) : Nat := decValFrom 0 ds

/-- Optional sign handling of strconv.ParseInt: a single leading plus
or minus sign. Returns the sign and the remaining characters. -/
def splitSign : Str → Bool × Str
  | [] => (false, [])
  | c :: rest =>
      if c = '+' then (false, rest)
      else if c = '-' then (true, rest)
      else (false, c :: rest)

/-- Syntactic well-formedness of a base-10 integer literal as accepted
by strconv.Atoi: an optional sign followed by one or more decimal
digits and nothing else. -/
def decimalShapeOK (s : Str) : Bool :=
  !(splitSign s).2.isEmpty && (splitSign s).2.all isDigitCh

/-- Exact integer value of a base-10 literal, or none on a syntax
error. -/
def decimalIntOf (s : Str) : Option Int :=
  if decimalShapeOK s then
    some (if (splitSign s).1 then -(decimalValue (splitSign s).2 : Int)
          else (decimalValue (splitSign s).2 : Int))
  else none

def maxInt64 : Int := 9223372036854775807

def minInt64 : Int := -9223372036854775808

/-- Models Go strconv.Atoi on a 64-bit platform with the error
discarded, as the listing handler does: a syntax error yields 0, an
out-of-range value is clamped to the int64 bound (strconv returns the
bound together with ErrRange), and otherwise the exact value is
returned. -/
def goAtoi (s : Str) : Int :=
  match decimalIntOf s with
  | none => 0
  | some v =>
      if v > maxInt64 then maxInt64
      else if v < minInt64 then minInt64
      else v

/-- Go conversion uint16(v) of a machine integer: the low 16 bits,
that is the value reduced modulo 2 to the 16 in the sense of the
nonnegative remainder. -/
def toUint16 (v : Int) : Nat := (v % 65536).toNat

/-- Go conversion uint8(v): the low 8 bits. -/
def toUint8 (v : Int) : Nat := (v % 256).toNat

theorem natDigitsAux_ne_nil (fuel : Nat) : ∀ n, n < fuel → natDigitsAux fuel n ≠ [] := by
  induction fuel with
  | zero =>
      intro n h
      omega
  | succ fuel _ =>
      intro n _
      show (if n < 10 then [digitChar n]
            else natDigitsAux fuel (n / 10) ++ [digitChar (n % 10)]) ≠ []
      split
      · simp
      · simp

theorem natDigits_ne_nil (n : Nat) : natDigits n ≠ [] :=
  natDigitsAux_ne_nil (n + 1) n (Nat.lt_succ_self n)

theorem digitChar_digit (d : Nat) (h : d < 10) : isDigitCh (digitChar d) = true := by
  interval_cases d <;> decide

theorem digitVal_digitChar (d : Nat) (h : d < 10) : digitVal (digitChar d) = d := by
  interval_cases d <;> decide

theorem natDigitsAux_all (fuel : Nat) :
    ∀ n, n < fuel → ∀ c ∈ natDigitsAux fuel n, isDigitCh c = true := by
  induction fuel with
  | zero =>
      intro n h
      omega
  | succ fuel ih =>
      intro n hn
      show ∀ c ∈ (if n < 10 then [digitChar n]
                  else natDigitsAux fuel (n / 10) ++ [digitChar (n % 10)]),
        isDigitCh c = true
      split
      · rename_i h
        intro c hc
        rw [List.mem_singleton] at hc
        subst hc
        exact digitChar_digit n h
      · rename_i h
        intro c hc
        rw [List.mem_append] at hc
        cases hc with
        | inl h2 => exact ih (n / 10) (by omega) c h2
        | inr h2 =>
            rw [List.mem_singleton] at h2
            subst h2
            exact digitChar_digit (n % 10) (by omega)

theorem natDigits_all (n : Nat) : ∀ c ∈ natDigits n, isDigitCh c = true :=
  natDigitsAux_all (n + 1) n (Nat.lt_succ_self n)

theorem natDigitsAux_decVal (fuel : Nat) : ∀ n, n < fuel → ∀ acc,
    decValFrom acc (natDigitsAux fuel n) =
      acc * 10 ^ (natDigitsAux fuel n).length + n := by
  induction fuel with
  | zero =>
      intro n h
      omega
  | succ fuel ih =>
      intro n hn acc
      show decValFrom acc (if n < 10 then [digitChar n]
            else natDigitsAux fuel (n / 10) ++ [digitChar (n % 10)]) =
          acc * 10 ^ (if n < 10 then [digitChar n]
            else natDigitsAux fuel (n / 10) ++ [digitChar (n % 10)]).length + n
      split
      · rename_i h
        simp [decValFrom, digitVal_digitChar n h]
      · rename_i h
        rw [List.length_append, List.length_singleton]
        unfold decValFrom
        rw [List.foldl_append]
        have ihn := ih (n / 10) (by omega) acc
        unfold decValFrom at ihn
        rw [ihn]
        simp only [List.foldl_cons, List.foldl_nil]
        rw [digitVal_digitChar (n % 10) (by omega)]
        have hdm : 10 * (n / 10) + n % 10 = n := Nat.div_add_mod n 10
        rw [pow_succ]
        nlinarith [hdm]

theorem decValFrom_natDigits (n : Nat) :
    ∀ acc, decValFrom acc (natDigits n) = acc * 10 ^ (natDigits n).length + n :=
  natDigitsAux_decVal (n + 1) n (Nat.lt_succ_self n)

theorem decimalValue_natDigits (n : Nat) : decimalValue (natDigits n) = n := by
  have h := decValFrom_natDigits n 0
  simpa [decimalValue] using h

theorem splitSign_digit (c : Char) (cs : Str) (h : isDigitCh c = true) :
    splitSign (c :: cs) = (false, c :: cs) := by
  have h1 : c ≠ '+' := by
    rintro rfl
    exact absurd h (by decide)
  have h2 : c ≠ '-' := by
    rintro rfl
    exact absurd h (by decide)
  simp [splitSign, h1, h2]

theorem goAtoi_natDigits (n : Nat) (h : (n : Int) ≤ maxInt64) :
    goAtoi (natDigits n) = (n : Int) := by
  obtain ⟨c, cs, hcc⟩ : ∃ c cs, natDigits n = c :: cs := by
    cases hd : natDigits n with
    | nil => exact absurd hd (natDigits_ne_nil n)
    | cons c cs => exact ⟨c, cs, rfl⟩
  have hall := natDigits_all n
  have hsplit : splitSign (natDigits n) = (false, natDigits n) := by
    rw [hcc]
    exact splitSign_digit c cs (hall c (hcc ▸ List.mem_cons_self c cs))
  have hsplit2 : splitSign (c :: cs) = (false, c :: cs) :=
    splitSign_digit c cs (hall c (hcc ▸ List.mem_cons_self c cs))
  have hshape : decimalShapeOK (natDigits n) = true := by
    simp only [decimalShapeOK, hcc, hsplit2, List.isEmpty_cons, Bool.not_false,
      Bool.true_and, List.all_eq_true]
    intro x hx
    exact hall x (hcc ▸ hx)
  have hval : decimalIntOf (natDigits n) = some (n : Int) := by
    rw [decimalIntOf, if_pos hshape, hsplit]
    simp [decimalValue_natDigits n]
  rw [goAtoi, hval]
  show (if (n : Int) > maxInt64 then maxInt64
        else if (n : Int) < minInt64 then minInt64 else (n : Int)) = (n : Int)
  have h0 : (0 : Int) ≤ (n : Int) := Int.natCast_nonneg n
  rw [if_neg (by omega), if_neg (by rw [minInt64]; omega)]

theorem goAtoi_shape_false (s : Str) (h : decimalShapeOK s = false) :
    goAtoi s = 0 := by
  rw [goAtoi, decimalIntOf, if_neg (by simp [h])]

theorem goAtoi_inRange (s : Str) (v : Int) (h : decimalIntOf s = some v)
    (h1 : minInt64 ≤ v) (h2 : v ≤ maxInt64) : goAtoi s = v := by
  rw [goAtoi, h]
  show (if v > maxInt64 then maxInt64
        else if v < minInt64 then minInt64 else v) = v
  rw [if_neg (by omega), if_neg (by omega)]

def notColon (c : Char) : Bool := decide (c ≠ ':')

def notSlash (c : Char) : Bool := decide (c ≠ '/')

/-- Modelled from the spec: the parsed absolute URL held by an endpoint
record (the meow package with its net/url use is not under src/). Per
the data model a URL is scheme plus host plus optional path, stored as
its canonical string form. -/
structure URL where
  scheme : Str
  host : Str
  path : Str
deriving DecidableEq

/-- Canonical string form of a URL: scheme, colon and two slashes, host,
then the optional path. -/
def urlToString (u : URL) : Str :=
  u.scheme ++ ':' :: '/' :: '/' :: (u.host ++ u.path)

/-- Modelled from the spec: parsing an absolute URL string (net/url in
the missing meow package): the scheme runs to the first colon, which
must be followed by two slashes; the host runs to the next slash; the
rest is the path. Scheme and host must be nonempty. -/
def parseURL (s : Str) : Option URL :=
  match s.dropWhile notColon with
  | c1 :: c2 :: c3 :: tail =>
      if c1 = ':' ∧ c2 = '/' ∧ c3 = '/' then
        if s.takeWhile notColon = [] ∨ tail.takeWhile notSlash = [] then none
        else some ⟨s.takeWhile notColon, tail.takeWhile notSlash, tail.dropWhile notSlash⟩
      else none
  | _ => none

/-- Validity of a URL value: nonempty scheme free of colons, nonempty
host free of slashes, and a path that is empty or starts with a slash.
These are the URLs whose canonical form parses back to the same
value. -/
abbrev ValidURL (u : URL) : Prop :=
  u.scheme ≠ [] ∧ ':' ∉ u.scheme ∧ u.host ≠ [] ∧ '/' ∉ u.host ∧
    (u.path = [] ∨ u.path.head? = some '/')

theorem takeWhile_app_all (p : Char → Bool) (l1 l2 : Str)
    (h : ∀ a ∈ l1, p a = true) :
    List.takeWhile p (l1 ++ l2) = l1 ++ List.takeWhile p l2 := by
  induction l1 with
  | nil => simp
  | cons a t ih =>
      simp only [List.cons_append, List.takeWhile_cons,
        h a (List.mem_cons_self a t), if_true, List.cons.injEq, true_and]
      exact ih (fun x hx => h x (List.mem_cons_of_mem a hx))

theorem dropWhile_app_all (p : Char → Bool) (l1 l2 : Str)
    (h : ∀ a ∈ l1, p a = true) :
    List.dropWhile p (l1 ++ l2) = List.dropWhile p l2 := by
  induction l1 with
  | nil => simp
  | cons a t ih =>
      simp only [List.cons_append, List.dropWhile_cons,
        h a (List.mem_cons_self a t), if_true]
      exact ih (fun x hx => h x (List.mem_cons_of_mem a hx))

theorem takeWhile_all_eq (p : Char → Bool) (l : Str)
    (h : ∀ a ∈ l, p a = true) : List.takeWhile p l = l := by
  induction l with
  | nil => simp
  | cons a t ih =>
      simp only [List.takeWhile_cons, h a (List.mem_cons_self a t),
        if_true, List.cons.injEq, true_and]
      exact ih (fun x hx => h x (List.mem_cons_of_mem a hx))

theorem dropWhile_all_eq (p : Char → Bool) (l : Str)
    (h : ∀ a ∈ l, p a = true) : List.dropWhile p l = [] := by
  induction l with
  | nil => simp
  | cons a t ih =>
      simp only [List.dropWhile_cons, h a (List.mem_cons_self a t), if_true]
      exact ih (fun x hx => h x (List.mem_cons_of_mem a hx))

theorem parseURL_roundTrip (u : URL) (h : ValidURL u) :
    parseURL (urlToString u) = some u := by
  obtain ⟨h1, h2, h3, h4, h5⟩ := h
  have hps : ∀ a ∈ u.scheme, notColon a = true := by
    intro a ha
    exact decide_eq_true (by rintro rfl; exact h2 ha)
  have hph : ∀ a ∈ u.host, notSlash a = true := by
    intro a ha
    exact decide_eq_true (by rintro rfl; exact h4 ha)
  have htake : (urlToString u).takeWhile notColon = u.scheme := by
    unfold urlToString
    rw [takeWhile_app_all notColon _ _ hps]
    simp [List.takeWhile_cons, notColon]
  have hdrop : (urlToString u).dropWhile notColon =
      ':' :: '/' :: '/' :: (u.host ++ u.path) := by
    unfold urlToString
    rw [dropWhile_app_all notColon _ _ hps]
    simp [List.dropWhile_cons, notColon]
  have hhost : (u.host ++ u.path).takeWhile notSlash = u.host := by
    cases h5 with
    | inl hp => rw [hp, List.append_nil]; exact takeWhile_all_eq notSlash u.host hph
    | inr hp =>
        obtain ⟨t, ht⟩ : ∃ t, u.path = '/' :: t := by
          cases hq : u.path with
          | nil => rw [hq] at hp; exact absurd hp (by simp)
          | cons x xs =>
              rw [hq] at hp
              simp only [List.head?_cons, Option.some.injEq] at hp
              exact ⟨xs, by rw [hp]⟩
        rw [ht, takeWhile_app_all notSlash _ _ hph]
        simp [List.takeWhile_cons, notSlash]
  have hpath : (u.host ++ u.path).dropWhile notSlash = u.path := by
    cases h5 with
    | inl hp => rw [hp, List.append_nil]; exact dropWhile_all_eq notSlash u.host hph
    | inr hp =>
        obtain ⟨t, ht⟩ : ∃ t, u.path = '/' :: t := by
          cases hq : u.path with
          | nil => rw [hq] at hp; exact absurd hp (by simp)
          | cons x xs =>
              rw [hq] at hp
              simp only [List.head?_cons, Option.some.injEq] at hp
              exact ⟨xs, by rw [hp]⟩
        rw [ht, dropWhile_app_all notSlash _ _ hph]
        simp [List.dropWhile_cons, notSlash]
  unfold parseURL
  simp only [htake, hdrop, hhost, hpath]
  simp [h1, h3]

/-- Modelled from the spec: canonical duration string of the frequency
field (time.Duration rendering in the missing meow package); the spec
requires only that the rendering parses back symmetrically. Rendered
here as the decimal number of nanoseconds followed by the unit suffix
ns. -/
def durToString (d : Nat) : Str := natDigits d ++ ['n', 's']

/-- Modelled from the spec: duration parsing (time.ParseDuration in the
missing meow package), inverse of durToString: one or more decimal
digits followed by the suffix ns. -/
def parseDuration (s : Str) : Option Nat :=
  match s.reverse with
  | c1 :: c2 :: rds =>
      if c1 = 's' ∧ c2 = 'n' ∧ rds ≠ [] ∧ rds.reverse.all isDigitCh = true then
        some (decimalValue rds.reverse)
      else none
  | _ => none

theorem durToString_roundTrip (d : Nat) : parseDuration (durToString d) = some d := by
  unfold durToString parseDuration
  rw [List.reverse_append]
  show (match 's' :: 'n' :: (natDigits d).reverse with
        | c1 :: c2 :: rds =>
            if c1 = 's' ∧ c2 = 'n' ∧ rds ≠ [] ∧ rds.reverse.all isDigitCh = true then
              some (decimalValue rds.reverse)
            else none
        | _ => none) = some d
  have hall : ((natDigits d).reverse).reverse.all isDigitCh = true := by
    rw [List.reverse_reverse, List.all_eq_true]
    exact natDigits_all d
  have hne : (natDigits d).reverse ≠ [] := by
    rw [ne_eq, List.reverse_eq_nil_iff]
    exact natDigits_ne_nil d
  simp only [hall, hne, List.reverse_reverse, decimalValue_natDigits]
  simp
  exact ⟨natDigits_ne_nil d, natDigits_all d⟩

/-- Modelled from the spec: the endpoint record of the missing meow
package, one monitored target's configuration. statusOnline is the
uint16 healthy status code, failAfter the uint8 consecutive-failure
threshold, frequency the check interval in nanoseconds. -/
structure Endpoint where
  identifier : Str
  url : URL
  method : Str
  statusOnline : Nat
  frequency : Nat
  failAfter : Nat
deriving DecidableEq

/-- Modelled from the spec: the structured wire form of a record
(meow.EndpointPayload), with the JSON text abstracted to its decoded
fields: numeric fields as numbers, duration and URL as strings. -/
structure EndpointPayload where
  identifier : Str
  url : Str
  method : Str
  statusOnline : Nat
  frequency : Str
  failAfter : Nat
deriving DecidableEq

/-- Modelled from the spec: the structured-form rendering of a record
(meow Endpoint JSON in the missing package). -/
def endpointToPayload (e : Endpoint) : EndpointPayload :=
  { identifier := e.identifier
    url := urlToString e.url
    method := e.method
    statusOnline := e.statusOnline
    frequency := durToString e.frequency
    failAfter := e.failAfter }

/-- Modelled from the spec: meow.EndpointFromJSON after JSON field
extraction: decoding fails on an unparseable URL, an unparseable
duration, or an out-of-range numeric field (the Go struct fields are
uint16 and uint8); nothing else is validated. -/
def payloadToEndpoint (p : EndpointPayload) : Option Endpoint :=
  match parseURL p.url, parseDuration p.frequency with
  | some u, some f =>
      if p.statusOnline < 65536 ∧ p.failAfter < 256 then
        some { identifier := p.identifier, url := u, method := p.method,
               statusOnline := p.statusOnline, frequency := f,
               failAfter := p.failAfter }
      else none
  | _, _ => none

abbrev FlatHash := List (Str × Str)

/-- Lookup of a field in a stored hash, with the empty string as the
Go map access default for a missing field. -/
def hashGet : FlatHash → Str → Str
  | [], _ => []
  | (k, v) :: rest, key => if k = key then v else hashGet rest key

theorem hashGet_cons (k v key : Str) (t : FlatHash) :
    hashGet ((k, v) :: t) key = if k = key then v else hashGet t key := rfl

/-- Translation of the HSET argument list of postEndpoint: the six
fields of an endpoint rendered to strings (numeric fields via
strconv.Itoa, URL and frequency via their canonical string forms,
identifier and method verbatim). -/
def endpointToFlat (e : Endpoint) : FlatHash :=
  [(kIdentifier, e.identifier),
   (kUrl, urlToString e.url),
   (kMethod, e.method),
   (kStatusOnline, natDigits e.statusOnline),
   (kFrequency, durToString e.frequency),
   (kFailAfter, natDigits e.failAfter)]

/-- Translation of the flat-form decode in the loop body of
getEndpoints: field lookups with the Go map default, best-effort
strconv.Atoi with the error discarded, and narrowing uint16 and uint8
conversions. -/
def flatToPayload (kvs : FlatHash) : EndpointPayload :=
  { identifier := hashGet kvs kIdentifier
    url := hashGet kvs kUrl
    method := hashGet kvs kMethod
    statusOnline := toUint16 (goAtoi (hashGet kvs kStatusOnline))
    frequency := hashGet kvs kFrequency
    failAfter := toUint8 (goAtoi (hashGet kvs kFailAfter)) }

/-- Modelled from the spec: meow.EndpointFromMap (used by getEndpoint,
absent from src/), decoding the flat form into a record: fails when the
stored URL or duration cannot be parsed, with best-effort numeric
decoding of the numeric fields. -/
def EndpointFromMap (kvs : FlatHash) : Option Endpoint :=
  match parseURL (hashGet kvs kUrl), parseDuration (hashGet kvs kFrequency) with
  | some u, some f =>
      some { identifier := hashGet kvs kIdentifier, url := u,
             method := hashGet kvs kMethod,
             statusOnline := toUint16 (goAtoi (hashGet kvs kStatusOnline)),
             frequency := f,
             failAfter := toUint8 (goAtoi (hashGet kvs kFailAfter)) }
  | _, _ => none

/-- Validity of a record's six fields in the sense of the spec:
grammar-valid identifier, parseable absolute URL, a duration and
in-range numeric fields. -/
abbrev ValidEndpoint (e : Endpoint) : Prop :=
  specIdentGrammar e.identifier ∧ ValidURL e.url ∧
    e.statusOnline < 65536 ∧ e.failAfter < 256 ∧ e.frequency < 2 ^ 63

theorem hashGet_flat_identifier (e : Endpoint) :
    hashGet (endpointToFlat e) kIdentifier = e.identifier := by
  rw [endpointToFlat, hashGet_cons, if_pos rfl]

theorem hashGet_flat_url (e : Endpoint) :
    hashGet (endpointToFlat e) kUrl = urlToString e.url := by
  rw [endpointToFlat, hashGet_cons, if_neg (by decide), hashGet_cons, if_pos rfl]

theorem hashGet_flat_method (e : Endpoint) :
    hashGet (endpointToFlat e) kMethod = e.method := by
  rw [endpointToFlat, hashGet_cons, if_neg (by decide), hashGet_cons,
    if_neg (by decide), hashGet_cons, if_pos rfl]

theorem hashGet_flat_statusOnline (e : Endpoint) :
    hashGet (endpointToFlat e) kStatusOnline = natDigits e.statusOnline := by
  rw [endpointToFlat, hashGet_cons, if_neg (by decide), hashGet_cons,
    if_neg (by decide), hashGet_cons, if_neg (by decide), hashGet_cons, if_pos rfl]

theorem hashGet_flat_frequency (e : Endpoint) :
    hashGet (endpointToFlat e) kFrequency = durToString e.frequency := by
  rw [endpointToFlat, hashGet_cons, if_neg (by decide), hashGet_cons,
    if_neg (by decide), hashGet_cons, if_neg (by decide), hashGet_cons,
    if_neg (by decide), hashGet_cons, if_pos rfl]

theorem hashGet_flat_failAfter (e : Endpoint) :
    hashGet (endpointToFlat e) kFailAfter = natDigits e.failAfter := by
  rw [endpointToFlat, hashGet_cons, if_neg (by decide), hashGet_cons,
    if_neg (by decide), hashGet_cons, if_neg (by decide), hashGet_cons,
    if_neg (by decide), hashGet_cons, if_neg (by decide), hashGet_cons, if_pos rfl]

theorem toUint16_natCast (n : Nat) (h : n < 65536) : toUint16 (n : Int) = n := by
  unfold toUint16
  omega

theorem toUint8_natCast (n : Nat) (h : n < 256) : toUint8 (n : Int) = n := by
  unfold toUint8
  omega

theorem natCast_le_maxInt64 (n : Nat) (h : n < 2 ^ 63) : (n : Int) ≤ maxInt64 := by
  rw [maxInt64]
  omega

theorem structuredRoundTrip (e : Endpoint) (h : ValidEndpoint e) :
    payloadToEndpoint (endpointToPayload e) = some e := by
  obtain ⟨_, hurl, hs, hf, _⟩ := h
  unfold payloadToEndpoint endpointToPayload
  simp only []
  rw [parseURL_roundTrip e.url hurl, durToString_roundTrip e.frequency]
  show (if e.statusOnline < 65536 ∧ e.failAfter < 256 then
          some { identifier := e.identifier, url := e.url, method := e.method,
                 statusOnline := e.statusOnline, frequency := e.frequency,
                 failAfter := e.failAfter }
        else none) = some e
  rw [if_pos ⟨hs, hf⟩]

theorem flatRoundTripMap (e : Endpoint) (h : ValidEndpoint e) :
    EndpointFromMap (endpointToFlat e) = some e := by
  obtain ⟨_, hurl, hs, hf, hq⟩ := h
  unfold EndpointFromMap
  rw [hashGet_flat_url, hashGet_flat_frequency, hashGet_flat_identifier,
    hashGet_flat_method, hashGet_flat_statusOnline, hashGet_flat_failAfter,
    parseURL_roundTrip e.url hurl, durToString_roundTrip e.frequency]
  show some { identifier := e.identifier, url := e.url, method := e.method,
              statusOnline := toUint16 (goAtoi (natDigits e.statusOnline)),
              frequency := e.frequency,
              failAfter := toUint8 (goAtoi (natDigits e.failAfter)) } = some e
  rw [goAtoi_natDigits e.statusOnline (natCast_le_maxInt64 _ (by omega)),
    goAtoi_natDigits e.failAfter (natCast_le_maxInt64 _ (by omega)),
    toUint16_natCast e.statusOnline hs, toUint8_natCast e.failAfter hf]

theorem flatRoundTripPayload (e : Endpoint) (h : ValidEndpoint e) :
    flatToPayload (endpointToFlat e) = endpointToPayload e := by
  obtain ⟨_, _, hs, hf, _⟩ := h
  unfold flatToPayload endpointToPayload
  rw [hashGet_flat_url, hashGet_flat_frequency, hashGet_flat_identifier,
    hashGet_flat_method, hashGet_flat_statusOnline, hashGet_flat_failAfter,
    goAtoi_natDigits e.statusOnline (natCast_le_maxInt64 _ (by omega)),
    goAtoi_natDigits e.failAfter (natCast_le_maxInt64 _ (by omega)),
    toUint16_natCast e.statusOnline hs, toUint8_natCast e.failAfter hf]

abbrev Store := List (Str × FlatHash)

/-- Lookup of a key in the store. -/
def lookupStore : Store → Str → Option FlatHash
  | [], _ => none
  | (k, h) :: rest, key => if k = key then some h else lookupStore rest key

/-- Translation of the HGETALL command as the handlers use it: the hash
stored under the key, empty when the key is absent. -/
def hgetall (st : Store) (key : Str) : FlatHash :=
  (lookupStore st key).getD []

/-- Setting one field of a hash, one field-value pair of an HSET
command: replaces the value of an existing field in place, appends a
new field at the end. -/
def setField : FlatHash → Str × Str → FlatHash
  | [], kv => [kv]
  | (k, v) :: rest, kv =>
      if k = kv.1 then (k, kv.2) :: rest else (k, v) :: setField rest kv

theorem setField_cons (k v : Str) (t : FlatHash) (kv : Str × Str) :
    setField ((k, v) :: t) kv =
      if k = kv.1 then (k, kv.2) :: t else (k, v) :: setField t kv := rfl

/-- Field-merge semantics of one HSET command: every given field is set
on the existing hash; fields not mentioned are kept. -/
def mergeFields (old : FlatHash) (fields : FlatHash) : FlatHash :=
  fields.foldl setField old

/-- Translation of the HSET command on the store: merges the given
fields into the hash under the key, creating the hash when the key is
absent. -/
def hset : Store → Str → FlatHash → Store
  | [], key, fields => [(key, mergeFields [] fields)]
  | (k, h) :: rest, key, fields =>
      if k = key then (k, mergeFields h fields) :: rest
      else (k, h) :: hset rest key fields

/-- Tests whether the second string starts with the first. -/
def leadsWith : Str → Str → Bool
  | [], _ => true
  | _ :: _, [] => false
  | p :: ps, c :: cs => decide (p = c) && leadsWith ps cs

/-- Translation of the KEYS command with the glob pattern endpoint:*
as getEndpoints issues it: every key of the store starting with the
literal endpoint: (the trailing star matches any suffix), in store
enumeration order. -/
def keysMatching (st : Store) : List Str :=
  (st.map Prod.fst).filter (leadsWith kEndpointKey)

structure SingleResponse where
  status : Nat
  body : Option EndpointPayload
deriving DecidableEq

structure PostResponse where
  status : Nat
  body : Option EndpointPayload
  store : Store
deriving DecidableEq

structure ListResponse where
  status : Nat
  body : Option (List EndpointPayload)
deriving DecidableEq

/-- Translation of getEndpoint: extract and validate the identifier
(400 on failure), HGETALL on endpoint:<id>, 404 with an empty body when
no fields exist, decode via EndpointFromMap (500 on failure), else 200
with the structured form as the body. The store is modelled as
reliable, so the transport error path of HGETALL is not taken. -/
def getEndpoint (path : Str) (st : Store) : SingleResponse :=
  match extractEndpointIdentifier path with
  | none => ⟨400, none⟩
  | some id =>
      if hgetall st (kEndpointKey ++ id) = [] then ⟨404, none⟩
      else
        match EndpointFromMap (hgetall st (kEndpointKey ++ id)) with
        | none => ⟨500, none⟩
        | some e => ⟨200, some (endpointToPayload e)⟩

/-- Translation of postEndpoint. The request body is modelled at the
decoded level: the outer none stands for a body that is not valid JSON,
and payloadToEndpoint models the remaining checks of
meow.EndpointFromJSON. The handler decodes the body (400 on failure),
checks existence of the key endpoint:<body identifier> via HGETALL, and
only when a record exists extracts the path identifier (400 on failure)
and compares it with the body identifier (400 on mismatch, before any
write); it then writes all six fields with one HSET and answers 201
(created) or 204 (updated). No branch writes a response body. The
store is modelled as reliable. -/
def postEndpoint (body : Option EndpointPayload) (path : Str) (st : Store) : PostResponse :=
  match body with
  | none => ⟨400, none, st⟩
  | some p =>
      match payloadToEndpoint p with
      | none => ⟨400, none, st⟩
      | some e =>
          if hgetall st (kEndpointKey ++ e.identifier) = [] then
            ⟨201, none, hset st (kEndpointKey ++ e.identifier) (endpointToFlat e)⟩
          else
            match extractEndpointIdentifier path with
            | none => ⟨400, none, st⟩
            | some pid =>
                if pid = e.identifier then
                  ⟨204, none, hset st (kEndpointKey ++ e.identifier) (endpointToFlat e)⟩
                else ⟨400, none, st⟩

/-- Loop of getEndpoints over the key list: per-key HGETALL (modelled
fallible), flat-form decode, results appended in order; the first
failing read aborts the whole listing. -/
def collectHashes : List Str → (Str → Option FlatHash) → Option (List EndpointPayload)
  | [], _ => some []
  | k :: rest, read =>
      match read k with
      | none => none
      | some h =>
          match collectHashes rest read with
          | none => none
          | some ps => some (flatToPayload h :: ps)

/-- Translation of getEndpoints with the two store interactions kept
abstract and fallible: the KEYS result (none standing for a transport
error, answered 500 with no body) and the per-key HGETALL (the first
failure answers 500 with no body, so no partial results reach the
caller); on success the payload list is the 200 body. -/
def getEndpointsGo (keysRes : Option (List Str)) (read : Str → Option FlatHash) : ListResponse :=
  match keysRes with
  | none => ⟨500, none⟩
  | some keys =>
      match collectHashes keys read with
      | none => ⟨500, none⟩
      | some ps => ⟨200, some ps⟩

/-- getEndpoints over a reliable store: KEYS endpoint:* enumerates the
matching keys in store order and every HGETALL succeeds. -/
def getEndpoints (st : Store) : ListResponse :=
  getEndpointsGo (some (keysMatching st)) (fun k => some (hgetall st k))

/-- Posting a sequence of records, each as its structured-form body,
through postEndpoint, threading the store; the request path is taken
empty. -/
def postAllFrom (st : Store) (es : List Endpoint) : Store :=
  es.foldl (fun s e => (postEndpoint (some (endpointToPayload e)) [] s).store) st

/-- The store holding exactly the given records, in order. -/
def storeOf (es : List Endpoint) : Store :=
  es.map (fun e => (kEndpointKey ++ e.identifier, endpointToFlat e))

theorem flat_ne_nil (e : Endpoint) : endpointToFlat e ≠ [] := by
  simp [endpointToFlat]

theorem mergeFields_nil_flat (e : Endpoint) :
    mergeFields [] (endpointToFlat e) = endpointToFlat e := by
  simp [mergeFields, endpointToFlat, setField, kIdentifier, kUrl, kMethod,
    kStatusOnline, kFrequency, kFailAfter]

theorem mergeFields_flat_flat (e1 e2 : Endpoint) :
    mergeFields (endpointToFlat e1) (endpointToFlat e2) = endpointToFlat e2 := by
  simp [mergeFields, endpointToFlat, setField, kIdentifier, kUrl, kMethod,
    kStatusOnline, kFrequency, kFailAfter]

theorem hgetall_hset (st : Store) (key : Str) (fields : FlatHash) :
    hgetall (hset st key fields) key = mergeFields (hgetall st key) fields := by
  induction st with
  | nil => simp [hset, hgetall, lookupStore]
  | cons kh rest ih =>
      obtain ⟨k, h⟩ := kh
      by_cases hk : k = key
      · subst hk
        simp [hset, hgetall, lookupStore]
      · simp only [hset, if_neg hk]
        simp only [hgetall, lookupStore, if_neg hk] at ih ⊢
        exact ih

theorem hset_fresh (st : Store) (key : Str) (fields : FlatHash)
    (h : lookupStore st key = none) :
    hset st key fields = st ++ [(key, mergeFields [] fields)] := by
  induction st with
  | nil => simp [hset]
  | cons kh rest ih =>
      obtain ⟨k, hh⟩ := kh
      by_cases hk : k = key
      · subst hk
        simp [lookupStore] at h
      · simp only [hset, if_neg hk, List.cons_append, List.cons.injEq, true_and]
        exact ih (by simpa [lookupStore, if_neg hk] using h)

theorem lookupStore_app_none (st1 st2 : Store) (key : Str)
    (h : lookupStore st1 key = none) :
    lookupStore (st1 ++ st2) key = lookupStore st2 key := by
  induction st1 with
  | nil => simp
  | cons kh rest ih =>
      obtain ⟨k, hh⟩ := kh
      by_cases hk : k = key
      · subst hk
        simp [lookupStore] at h
      · simp only [List.cons_append, lookupStore, if_neg hk] at h ⊢
        exact ih h

theorem lookupStore_app_some (st1 st2 : Store) (key : Str) (h0 : FlatHash)
    (h : lookupStore st1 key = some h0) :
    lookupStore (st1 ++ st2) key = some h0 := by
  induction st1 with
  | nil => simp [lookupStore] at h
  | cons kh rest ih =>
      obtain ⟨k, hh⟩ := kh
      by_cases hk : k = key
      · subst hk
        simp only [lookupStore, if_pos rfl] at h ⊢
        exact h
      · simp only [List.cons_append, lookupStore, if_neg hk] at h ⊢
        exact ih h

theorem postEndpoint_create (p : EndpointPayload) (e : Endpoint) (path : Str)
    (st : Store) (hd : payloadToEndpoint p = some e)
    (hne : hgetall st (kEndpointKey ++ e.identifier) = []) :
    postEndpoint (some p) path st =
      ⟨201, none, hset st (kEndpointKey ++ e.identifier) (endpointToFlat e)⟩ := by
  simp only [postEndpoint, hd]
  rw [if_pos hne]

theorem postEndpoint_update (p : EndpointPayload) (e : Endpoint) (path : Str)
    (st : Store) (hd : payloadToEndpoint p = some e)
    (hex : hgetall st (kEndpointKey ++ e.identifier) ≠ [])
    (hpid : extractEndpointIdentifier path = some e.identifier) :
    postEndpoint (some p) path st =
      ⟨204, none, hset st (kEndpointKey ++ e.identifier) (endpointToFlat e)⟩ := by
  simp only [postEndpoint, hd]
  rw [if_neg hex, hpid]
  show (if e.identifier = e.identifier then
          (⟨204, none, hset st (kEndpointKey ++ e.identifier) (endpointToFlat e)⟩ :
            PostResponse)
        else ⟨400, none, st⟩) =
      ⟨204, none, hset st (kEndpointKey ++ e.identifier) (endpointToFlat e)⟩
  rw [if_pos rfl]

theorem postEndpoint_mismatch (p : EndpointPayload) (e : Endpoint) (pid path : Str)
    (st : Store) (hd : payloadToEndpoint p = some e)
    (hex : hgetall st (kEndpointKey ++ e.identifier) ≠ [])
    (hpid : extractEndpointIdentifier path = some pid)
    (hne : pid ≠ e.identifier) :
    postEndpoint (some p) path st = ⟨400, none, st⟩ := by
  simp only [postEndpoint, hd]
  rw [if_neg hex, hpid]
  show (if pid = e.identifier then
          (⟨204, none, hset st (kEndpointKey ++ e.identifier) (endpointToFlat e)⟩ :
            PostResponse)
        else ⟨400, none, st⟩) = ⟨400, none, st⟩
  rw [if_neg hne]

theorem postEndpoint_badPath (p : EndpointPayload) (e : Endpoint) (path : Str)
    (st : Store) (hd : payloadToEndpoint p = some e)
    (hex : hgetall st (kEndpointKey ++ e.identifier) ≠ [])
    (hpath : extractEndpointIdentifier path = none) :
    postEndpoint (some p) path st = ⟨400, none, st⟩ := by
  simp only [postEndpoint, hd]
  rw [if_neg hex, hpath]

theorem getEndpoint_badPath (path : Str) (st : Store)
    (h : extractEndpointIdentifier path = none) :
    getEndpoint path st = ⟨400, none⟩ := by
  simp only [getEndpoint, h]

theorem getEndpoint_notFound (path id : Str) (st : Store)
    (h : extractEndpointIdentifier path = some id)
    (hne : hgetall st (kEndpointKey ++ id) = []) :
    getEndpoint path st = ⟨404, none⟩ := by
  simp only [getEndpoint, h]
  rw [if_pos hne]

theorem getEndpoint_corrupt (path id : Str) (st : Store)
    (h : extractEndpointIdentifier path = some id)
    (hne : hgetall st (kEndpointKey ++ id) ≠ [])
    (hm : EndpointFromMap (hgetall st (kEndpointKey ++ id)) = none) :
    getEndpoint path st = ⟨500, none⟩ := by
  simp only [getEndpoint, h]
  rw [if_neg hne, hm]

theorem collectHashes_total (keys : List Str) (g : Str → FlatHash) :
    collectHashes keys (fun k => some (g k)) =
      some (keys.map (fun k => flatToPayload (g k))) := by
  induction keys with
  | nil => rfl
  | cons k rest ih => simp [collectHashes, ih]

theorem collectHashes_fail (keys : List Str) (read : Str → Option FlatHash)
    (h : ∃ k ∈ keys, read k = none) : collectHashes keys read = none := by
  induction keys with
  | nil => simp at h
  | cons k rest ih =>
      obtain ⟨k0, hk0, hr⟩ := h
      rw [List.mem_cons] at hk0
      cases hk0 with
      | inl he =>
          subst he
          simp [collectHashes, hr]
      | inr he =>
          unfold collectHashes
          rw [ih ⟨k0, he, hr⟩]
          cases read k <;> rfl

theorem getEndpointsGo_fail (keys : List Str) (read : Str → Option FlatHash)
    (h : ∃ k ∈ keys, read k = none) :
    getEndpointsGo (some keys) read = ⟨500, none⟩ := by
  unfold getEndpointsGo
  show (match collectHashes keys read with
        | none => ({ status := 500, body := none } : ListResponse)
        | some ps => { status := 200, body := some ps }) = ⟨500, none⟩
  rw [collectHashes_fail keys read h]

theorem getEndpoints_eq (st : Store) :
    getEndpoints st =
      ⟨200, some ((keysMatching st).map (fun k => flatToPayload (hgetall st k)))⟩ := by
  unfold getEndpoints getEndpointsGo
  show (match collectHashes (keysMatching st) (fun k => some (hgetall st k)) with
        | none => ({ status := 500, body := none } : ListResponse)
        | some ps => { status := 200, body := some ps }) =
      ⟨200, some ((keysMatching st).map (fun k => flatToPayload (hgetall st k)))⟩
  rw [collectHashes_total]

theorem lookupStore_cons (k : Str) (h : FlatHash) (t : Store) (key : Str) :
    lookupStore ((k, h) :: t) key = if k = key then some h else lookupStore t key := rfl

theorem postAllFrom_eq (es : List Endpoint) : ∀ st : Store,
    (∀ e ∈ es, ValidEndpoint e) →
    (∀ e ∈ es, lookupStore st (kEndpointKey ++ e.identifier) = none) →
    es.Pairwise (fun a b => a.identifier ≠ b.identifier) →
    postAllFrom st es = st ++ storeOf es := by
  induction es with
  | nil =>
      intro st _ _ _
      simp [postAllFrom, storeOf]
  | cons e rest ih =>
      intro st hv hfresh hdist
      have hve : ValidEndpoint e := hv e (List.mem_cons_self e rest)
      have hrt : payloadToEndpoint (endpointToPayload e) = some e :=
        structuredRoundTrip e hve
      have hfe : lookupStore st (kEndpointKey ++ e.identifier) = none :=
        hfresh e (List.mem_cons_self e rest)
      have hemp : hgetall st (kEndpointKey ++ e.identifier) = [] := by
        rw [hgetall, hfe]
        rfl
      have hpost := postEndpoint_create (endpointToPayload e) e [] st hrt hemp
      have hstep : postAllFrom st (e :: rest) =
          postAllFrom ((postEndpoint (some (endpointToPayload e)) [] st).store) rest := rfl
      obtain ⟨hx, hrest⟩ := List.pairwise_cons.mp hdist
      rw [hstep, hpost]
      show postAllFrom (hset st (kEndpointKey ++ e.identifier) (endpointToFlat e)) rest =
        st ++ storeOf (e :: rest)
      rw [hset_fresh st _ _ hfe, mergeFields_nil_flat]
      have hv2 : ∀ x ∈ rest, ValidEndpoint x :=
        fun x hxm => hv x (List.mem_cons_of_mem e hxm)
      have hfresh2 : ∀ x ∈ rest,
          lookupStore (st ++ [(kEndpointKey ++ e.identifier, endpointToFlat e)])
            (kEndpointKey ++ x.identifier) = none := by
        intro x hxm
        rw [lookupStore_app_none st _ _ (hfresh x (List.mem_cons_of_mem e hxm))]
        rw [lookupStore_cons,
          if_neg (fun hc => (hx x hxm) (List.append_cancel_left hc))]
        rfl
      rw [ih (st ++ [(kEndpointKey ++ e.identifier, endpointToFlat e)]) hv2 hfresh2 hrest]
      show st ++ [(kEndpointKey ++ e.identifier, endpointToFlat e)] ++ storeOf rest =
        st ++ ((kEndpointKey ++ e.identifier, endpointToFlat e) :: storeOf rest)
      rw [List.append_assoc, List.singleton_append]

theorem lookup_storeOf (es : List Endpoint) (e : Endpoint)
    (hdist : es.Pairwise (fun a b => a.identifier ≠ b.identifier)) (he : e ∈ es) :
    lookupStore (storeOf es) (kEndpointKey ++ e.identifier) =
      some (endpointToFlat e) := by
  induction es with
  | nil => cases he
  | cons x rest ih =>
      rw [List.mem_cons] at he
      obtain ⟨hx, hrest⟩ := List.pairwise_cons.mp hdist
      show lookupStore ((kEndpointKey ++ x.identifier, endpointToFlat x) :: storeOf rest)
        (kEndpointKey ++ e.identifier) = some (endpointToFlat e)
      cases he with
      | inl h =>
          subst h
          rw [lookupStore_cons, if_pos rfl]
      | inr h =>
          rw [lookupStore_cons,
            if_neg (fun hc => (hx e h) (List.append_cancel_left hc))]
          exact ih hrest h

theorem leadsWith_app (p s : Str) : leadsWith p (p ++ s) = true := by
  induction p with
  | nil => rfl
  | cons c cs ih => simp [leadsWith, ih]

theorem keysMatching_storeOf (es : List Endpoint) :
    keysMatching (storeOf es) = es.map (fun e => kEndpointKey ++ e.identifier) := by
  unfold keysMatching storeOf
  rw [List.map_map]
  have hcomp : (Prod.fst ∘ fun e : Endpoint =>
      (kEndpointKey ++ e.identifier, endpointToFlat e)) =
      fun e : Endpoint => kEndpointKey ++ e.identifier := rfl
  rw [hcomp]
  rw [List.filter_eq_self.mpr]
  intro a ha
  rw [List.mem_map] at ha
  obtain ⟨e, _, rfl⟩ := ha
  exact leadsWith_app kEndpointKey e.identifier

theorem listing_after_postAll (es : List Endpoint)
    (hv : ∀ e ∈ es, ValidEndpoint e)
    (hdist : es.Pairwise (fun a b => a.identifier ≠ b.identifier)) :
    getEndpoints (postAllFrom [] es) = ⟨200, some (es.map endpointToPayload)⟩ := by
  rw [postAllFrom_eq es [] hv (fun _ _ => rfl) hdist, List.nil_append]
  rw [getEndpoints_eq, keysMatching_storeOf, List.map_map]
  have hmap : ∀ x ∈ es, ((fun k => flatToPayload (hgetall (storeOf es) k)) ∘
      fun e : Endpoint => kEndpointKey ++ e.identifier) x = endpointToPayload x := by
    intro x hxm
    show flatToPayload (hgetall (storeOf es) (kEndpointKey ++ x.identifier)) =
      endpointToPayload x
    rw [hgetall, lookup_storeOf es x hdist hxm]
    show flatToPayload (endpointToFlat x) = endpointToPayload x
    exact flatRoundTripPayload x (hv x hxm)
  rw [List.map_congr_left hmap]

def demoURL : URL := ⟨"https".data, "example.com".data, "/health".data⟩

def demoEndpoint : Endpoint :=
  { identifier := demoId, url := demoURL, method := "GET".data,
    statusOnline := 200, frequency := 30000000000, failAfter := 3 }

def demoEndpoint2 : Endpoint := { demoEndpoint with failAfter := 5 }

def demoStore : Store := [(kEndpointKey ++ demoId, endpointToFlat demoEndpoint)]

def badPath : Str := "/endpoints/Bad-Path".data

def otherId : Str := "other-id".data

def otherPath : Str := "/endpoints/other-id".data

def corruptStore : Store := [(kEndpointKey ++ demoId, [(kUrl, "nonsense".data)])]

def junkHash : FlatHash :=
  [(kStatusOnline, "abc".data), (kFailAfter, "x1".data), (kIdentifier, demoId)]

def hugeHash : FlatHash := [(kStatusOnline, "9223372036854775808".data)]

def negHash : FlatHash := [(kStatusOnline, "-1".data), (kFailAfter, "300".data)]

/-- C1 counterexample: a POST whose path segment is grammar-invalid but
whose valid body names an identifier with no existing record is NOT
answered 400: the handler never looks at the path, writes the record,
and answers 201; the store write does happen (the store is no longer
empty). -/
theorem C1_counterexample :
    (postEndpoint (some (endpointToPayload demoEndpoint)) badPath []).status = 201 ∧
      (postEndpoint (some (endpointToPayload demoEndpoint)) badPath []).store ≠ [] ∧
      (201 : Nat) ≠ 400 := by
  decide

/-- C1 amended: for every POST whose path segment does not satisfy the
identifier grammar and whose body decodes to a record, the handler
responds 400 and performs no store write when a record for the body's
identifier already exists; when none exists the path segment is not
examined, the record is written and 201 returned. -/
theorem C1_invalidPath_amended (p : EndpointPayload) (e : Endpoint) (path : Str)
    (st : Store) (hd : payloadToEndpoint p = some e)
    (hpath : extractEndpointIdentifier path = none) :
    (hgetall st (kEndpointKey ++ e.identifier) ≠ [] →
       postEndpoint (some p) path st = ⟨400, none, st⟩)
    ∧ (hgetall st (kEndpointKey ++ e.identifier) = [] →
       postEndpoint (some p) path st =
         ⟨201, none, hset st (kEndpointKey ++ e.identifier) (endpointToFlat e)⟩) :=
  ⟨fun hex => postEndpoint_badPath p e path st hd hex hpath,
   fun hne => postEndpoint_create p e path st hd hne⟩

theorem C1_invalidPath_amended_witness :
    postEndpoint (some (endpointToPayload demoEndpoint)) badPath demoStore =
      ⟨400, none, demoStore⟩ :=
  (C1_invalidPath_amended (endpointToPayload demoEndpoint) demoEndpoint badPath
    demoStore (by decide) (by decide)).1 (by decide)

/-- C2: for every POST to an identifier that already exists, if the
identifier extracted from the request path differs from the identifier
of the decoded body, the handler responds 400 and returns before any
write: the whole store, and in particular the stored record under that
key, is left exactly as it was. -/
theorem C2_mismatch_atomic (p : EndpointPayload) (e : Endpoint) (pid path : Str)
    (st : Store) (hd : payloadToEndpoint p = some e)
    (hex : hgetall st (kEndpointKey ++ e.identifier) ≠ [])
    (hpid : extractEndpointIdentifier path = some pid)
    (hne : pid ≠ e.identifier) :
    postEndpoint (some p) path st = ⟨400, none, st⟩ ∧
      hgetall (postEndpoint (some p) path st).store (kEndpointKey ++ e.identifier) =
        hgetall st (kEndpointKey ++ e.identifier) := by
  have h := postEndpoint_mismatch p e pid path st hd hex hpid hne
  exact ⟨h, by rw [h]⟩

theorem C2_mismatch_atomic_witness :
    postEndpoint (some (endpointToPayload demoEndpoint)) otherPath demoStore =
      ⟨400, none, demoStore⟩ :=
  (C2_mismatch_atomic (endpointToPayload demoEndpoint) demoEndpoint otherId otherPath
    demoStore (by decide) (by decide) (by decide) (by decide)).1

/-- C4: for every POST whose body decodes to a valid record: when no
record exists under the body identifier the handler writes the record
with one HSET and responds 201; when a record exists and the path
identifier equals the body identifier it responds 204 with no body and
the one combined write replaces all six stored fields, so the stored
hash afterwards is exactly the flat form of the new record (full
replacement, not a merge). -/
theorem C4_post_create_update (p : EndpointPayload) (e eOld : Endpoint) (path : Str)
    (st : Store) (hd : payloadToEndpoint p = some e) :
    (hgetall st (kEndpointKey ++ e.identifier) = [] →
       postEndpoint (some p) path st =
         ⟨201, none, hset st (kEndpointKey ++ e.identifier) (endpointToFlat e)⟩)
    ∧ (hgetall st (kEndpointKey ++ e.identifier) = endpointToFlat eOld →
       extractEndpointIdentifier path = some e.identifier →
       postEndpoint (some p) path st =
           ⟨204, none, hset st (kEndpointKey ++ e.identifier) (endpointToFlat e)⟩
         ∧ hgetall (postEndpoint (some p) path st).store (kEndpointKey ++ e.identifier) =
             endpointToFlat e) := by
  constructor
  · exact postEndpoint_create p e path st hd
  · intro hex hpid
    have hne : hgetall st (kEndpointKey ++ e.identifier) ≠ [] := by
      rw [hex]
      exact flat_ne_nil eOld
    have h := postEndpoint_update p e path st hd hne hpid
    refine ⟨h, ?_⟩
    rw [h]
    show hgetall (hset st (kEndpointKey ++ e.identifier) (endpointToFlat e)) _ =
      endpointToFlat e
    rw [hgetall_hset, hex, mergeFields_flat_flat]

theorem C4_post_create_update_witness :
    (postEndpoint (some (endpointToPayload demoEndpoint)) demoPath []).status = 201 ∧
      (postEndpoint (some (endpointToPayload demoEndpoint2)) demoPath demoStore).status = 204 ∧
      hgetall (postEndpoint (some (endpointToPayload demoEndpoint2)) demoPath
          demoStore).store (kEndpointKey ++ demoId) = endpointToFlat demoEndpoint2 := by
  refine ⟨?_, ?_, ?_⟩
  · rw [(C4_post_create_update (endpointToPayload demoEndpoint) demoEndpoint
      demoEndpoint demoPath [] (by decide)).1 (by decide)]
  · rw [((C4_post_create_update (endpointToPayload demoEndpoint2) demoEndpoint2
      demoEndpoint demoPath demoStore (by decide)).2 (by decide) (by decide)).1]
  · exact ((C4_post_create_update (endpointToPayload demoEndpoint2) demoEndpoint2
      demoEndpoint demoPath demoStore (by decide)).2 (by decide) (by decide)).2

/-- C5: the listing enumerates every key matching endpoint:*, reads and
decodes each, and any per-key read failure makes the whole request
answer 500 with no body (no partial results); on success it answers 200
with exactly one structured-form entry per stored record, in store
enumeration order; in particular after creating N records with distinct
identifiers on an empty store the listing is exactly the N structured
forms of what was stored. -/
theorem C5_listing :
    (∀ (keys : List Str) (read : Str → Option FlatHash),
       (∃ k ∈ keys, read k = none) → getEndpointsGo (some keys) read = ⟨500, none⟩)
    ∧ (∀ st : Store, getEndpoints st =
        ⟨200, some ((keysMatching st).map (fun k => flatToPayload (hgetall st k)))⟩)
    ∧ ∀ es : List Endpoint, (∀ e ∈ es, ValidEndpoint e) →
        es.Pairwise (fun a b => a.identifier ≠ b.identifier) →
        getEndpoints (postAllFrom [] es) = ⟨200, some (es.map endpointToPayload)⟩ ∧
          (es.map endpointToPayload).length = es.length :=
  ⟨getEndpointsGo_fail, getEndpoints_eq,
   fun es hv hdist => ⟨listing_after_postAll es hv hdist, List.length_map es _⟩⟩

theorem C5_listing_witness :
    getEndpointsGo (some [kEndpointKey ++ demoId]) (fun _ => none) = ⟨500, none⟩ ∧
      getEndpoints (postAllFrom [] [demoEndpoint]) =
        ⟨200, some [endpointToPayload demoEndpoint]⟩ :=
  ⟨C5_listing.1 [kEndpointKey ++ demoId] (fun _ => none)
     ⟨kEndpointKey ++ demoId, List.mem_singleton.mpr rfl, rfl⟩,
   (C5_listing.2.2 [demoEndpoint]
     (by intro e he; rw [List.mem_singleton] at he; subst he; decide)
     (List.pairwise_singleton _ _)).1⟩

/-- C6: for every GET of a single endpoint, a grammar-invalid
identifier answers 400; a grammar-valid identifier whose key holds no
fields answers 404 with an empty body; and when fields exist but the
flat-form decode fails the handler answers 500. -/
theorem C6_getEndpoint_errors (path id : Str) (st : Store) :
    (extractEndpointIdentifier path = none → getEndpoint path st = ⟨400, none⟩)
    ∧ (extractEndpointIdentifier path = some id →
       hgetall st (kEndpointKey ++ id) = [] → getEndpoint path st = ⟨404, none⟩)
    ∧ (extractEndpointIdentifier path = some id →
       hgetall st (kEndpointKey ++ id) ≠ [] →
       EndpointFromMap (hgetall st (kEndpointKey ++ id)) = none →
       getEndpoint path st = ⟨500, none⟩) :=
  ⟨fun h => getEndpoint_badPath path st h,
   fun h hne => getEndpoint_notFound path id st h hne,
   fun h hne hm => getEndpoint_corrupt path id st h hne hm⟩

theorem C6_getEndpoint_errors_witness :
    getEndpoint badPath [] = ⟨400, none⟩ ∧ getEndpoint demoPath [] = ⟨404, none⟩ ∧
      getEndpoint demoPath corruptStore = ⟨500, none⟩ :=
  ⟨(C6_getEndpoint_errors badPath demoId []).1 (by decide),
   (C6_getEndpoint_errors demoPath demoId []).2.1 (by decide) (by decide),
   (C6_getEndpoint_errors demoPath demoId corruptStore).2.2 (by decide) (by decide)
     (by decide)⟩

/-- C7: the flat-form decode of the listing handler is best-effort on
the numeric fields: whenever the stored status online or fail after
value is not a syntactically valid decimal number the decode still
succeeds, the affected field defaults to zero, and the remaining
fields are returned as stored. -/
theorem C7_bestEffort_numeric (kvs : FlatHash) :
    (decimalShapeOK (hashGet kvs kStatusOnline) = false →
       (flatToPayload kvs).statusOnline = 0)
    ∧ (decimalShapeOK (hashGet kvs kFailAfter) = false →
       (flatToPayload kvs).failAfter = 0)
    ∧ (flatToPayload kvs).identifier = hashGet kvs kIdentifier
    ∧ (flatToPayload kvs).url = hashGet kvs kUrl
    ∧ (flatToPayload kvs).method = hashGet kvs kMethod
    ∧ (flatToPayload kvs).frequency = hashGet kvs kFrequency := by
  refine ⟨fun hs => ?_, fun hf => ?_, rfl, rfl, rfl, rfl⟩
  · show toUint16 (goAtoi (hashGet kvs kStatusOnline)) = 0
    rw [goAtoi_shape_false _ hs]
    rfl
  · show toUint8 (goAtoi (hashGet kvs kFailAfter)) = 0
    rw [goAtoi_shape_false _ hf]
    rfl

theorem C7_bestEffort_numeric_witness :
    (flatToPayload junkHash).statusOnline = 0 ∧ (flatToPayload junkHash).failAfter = 0 ∧
      (flatToPayload junkHash).identifier = demoId :=
  ⟨(C7_bestEffort_numeric junkHash).1 (by decide),
   (C7_bestEffort_numeric junkHash).2.1 (by decide),
   (C7_bestEffort_numeric junkHash).2.2.1⟩

/-- C8: for every record whose six fields are valid, encoding to the
structured form and decoding back yields the identical record, and
encoding to the flat string-keyed form and decoding back yields the
identical record: both serialization mappings round-trip. -/
theorem C8_roundTrips (e : Endpoint) (h : ValidEndpoint e) :
    payloadToEndpoint (endpointToPayload e) = some e ∧
      EndpointFromMap (endpointToFlat e) = some e :=
  ⟨structuredRoundTrip e h, flatRoundTripMap e h⟩

theorem C8_roundTrips_witness :
    payloadToEndpoint (endpointToPayload demoEndpoint) = some demoEndpoint ∧
      EndpointFromMap (endpointToFlat demoEndpoint) = some demoEndpoint :=
  C8_roundTrips demoEndpoint (by decide)

/-- C9: for every POST whose body decodes to a record whose identifier
does not yet exist in the store, the handler never extracts or compares
the path segment: for every request path whatsoever, including
grammar-invalid ones and paths naming a different identifier, the
record is written under the key endpoint: plus the body identifier and
201 is returned. -/
theorem C9_create_ignores_path (p : EndpointPayload) (e : Endpoint) (path : Str)
    (st : Store) (hd : payloadToEndpoint p = some e)
    (hne : hgetall st (kEndpointKey ++ e.identifier) = []) :
    postEndpoint (some p) path st =
      ⟨201, none, hset st (kEndpointKey ++ e.identifier) (endpointToFlat e)⟩ :=
  postEndpoint_create p e path st hd hne

theorem C9_create_ignores_path_witness :
    postEndpoint (some (endpointToPayload demoEndpoint)) otherPath [] =
      ⟨201, none, hset [] (kEndpointKey ++ demoId) (endpointToFlat demoEndpoint)⟩ :=
  C9_create_ignores_path (endpointToPayload demoEndpoint) demoEndpoint otherPath []
    (by decide) (by decide)

/-- C10 counterexample: the stored decimal value 2 to the 63, which is
outside 0 to 65535, is clamped by strconv.Atoi to the int64 maximum
before the uint16 narrowing, so the returned field is 65535 and not the
value reduced modulo 2 to the 16, which would be 0. -/
theorem C10_counterexample :
    (flatToPayload hugeHash).statusOnline = 65535 ∧
      decimalIntOf (hashGet hugeHash kStatusOnline) = some (9223372036854775808 : Int) ∧
      ((9223372036854775808 : Int) % 65536).toNat = 0 ∧ (65535 : Nat) ≠ 0 := by
  decide

/-- C10 amended: status online and fail after are parsed as 64-bit
machine integers and narrowed with uint16 and uint8 conversions, so for
every stored decimal value within the signed 64-bit range, in
particular any such value outside 0 to 65535 respectively 0 to 255, the
returned field equals the value reduced modulo 2 to the 16 respectively
2 to the 8; values beyond the int64 range are first clamped by the
parser. -/
theorem C10_narrowing_amended (kvs : FlatHash) (n m : Int)
    (hs : decimalIntOf (hashGet kvs kStatusOnline) = some n)
    (hf : decimalIntOf (hashGet kvs kFailAfter) = some m)
    (hsr : minInt64 ≤ n ∧ n ≤ maxInt64) (hfr : minInt64 ≤ m ∧ m ≤ maxInt64) :
    (flatToPayload kvs).statusOnline = (n % 65536).toNat ∧
      (flatToPayload kvs).failAfter = (m % 256).toNat := by
  unfold flatToPayload
  rw [goAtoi_inRange _ n hs hsr.1 hsr.2, goAtoi_inRange _ m hf hfr.1 hfr.2]
  exact ⟨rfl, rfl⟩

theorem C10_narrowing_amended_witness :
    (flatToPayload negHash).statusOnline = 65535 ∧
      (flatToPayload negHash).failAfter = 44 := by
  have h := C10_narrowing_amended negHash (-1) 300 (by decide) (by decide)
    (by decide) (by decide)
  refine ⟨?_, ?_⟩
  · rw [h.1]
    decide
  · rw [h.2]
    decide
